import Mathlib

/-!
Verification of the CCDSTRU "Tres, Uno, Dos" game engine (src/ccdstru2.0.c).

The C program implements a three-role game on a 4×4 grid.  Board state is a
`GameState` holding three position sets (`Uno`, `Tres`, `F`), two phase flags
(`turn`, `go`) and a terminal flag (`over`).  We embed the engine shallowly:

* `Position`   — the C struct of two `int` coordinates (modelled as `Int`);
* a `PositionSet` (C array of 16 positions plus a size counter, of which only
  the first `size` entries are live) is modelled as the `List Position` of its
  live entries in array order;
* each C function becomes a Lean function of the same name; functions that
  mutate through a pointer return the updated value instead.
-/

structure Position where
  x : Int
  y : Int
deriving DecidableEq, Repr

/-- The equality test used throughout the C code:
`set.positions[i].x == pos.x && set.positions[i].y == pos.y`. -/
def posEq (a b : Position) : Bool :=
  a.x == b.x && a.y == b.y

/-- Game state: two player sets, the free set, the two phase flags and the
terminal flag (C struct `GameState`). -/
structure GameState where
  Uno : List Position
  Tres : List Position
  F : List Position
  turn : Bool
  go : Bool
  over : Bool
deriving DecidableEq, Repr

/-- The free set built by `initializeGame`'s double loop:
`x` from 1 to 4 (outer), `y` from 1 to 4 (inner). -/
def initialFree : List Position :=
  (List.range 4).flatMap (fun x => (List.range 4).map (fun y => ⟨(x : Int) + 1, (y : Int) + 1⟩))

/-- C `initializeGame`: empty player sets, all 16 cells free,
`turn = true`, `go = false`, `over = false`. -/
def initializeGame : GameState :=
  { Uno := [], Tres := [], F := initialFree, turn := true, go := false, over := false }

/-- C `positionInSet`: linear scan for a coordinate-wise match. -/
def positionInSet (pos : Position) (set : List Position) : Bool :=
  set.any (fun q => posEq q pos)

/-- C `addPositionToSet`: if the position is not already present, write it at
index `size` and increment `size` — i.e. append it to the live entries.
(The C code performs no capacity check before the write.) -/
def addPositionToSet (pos : Position) (set : List Position) : List Position :=
  if positionInSet pos set then set else set ++ [pos]

/-- C `removePositionFromSet`: scan for the first match; overwrite it with the
last live entry and decrement `size`.  On the list of live entries this is:
at the first match, replace the matching element by the last element and drop
the last position.  (Matching the head of `q :: rest`: if `rest` is empty the
matching element is itself the last, leaving `[]`; otherwise the last element
of `rest` replaces `q` and the final slot is dropped.)  No match: no change. -/
def removePositionFromSet (pos : Position) : List Position → List Position
  | [] => []
  | q :: rest =>
      if posEq q pos then
        match rest.getLast? with
        | none => []
        | some a => a :: rest.dropLast
      else q :: removePositionFromSet pos rest

/-- C `winningPatterns` (3 patterns: top row, anti-diagonal, right column). -/
def winningPatterns : List (List Position) :=
  [ [⟨1,1⟩, ⟨1,2⟩, ⟨1,3⟩, ⟨1,4⟩],
    [⟨1,4⟩, ⟨2,3⟩, ⟨3,2⟩, ⟨4,1⟩],
    [⟨4,1⟩, ⟨4,2⟩, ⟨4,3⟩, ⟨4,4⟩] ]

/-- C `checkWinningPattern`: some pattern has all four positions in the set. -/
def checkWinningPattern (playerSet : List Position) : Bool :=
  winningPatterns.any (fun pat => pat.all (fun p => positionInSet p playerSet))

/-- C `checkGameOver`: set `over` when either player completed a pattern or no
free position remains; otherwise leave the state alone (it never clears `over`). -/
def checkGameOver (game : GameState) : GameState :=
  if checkWinningPattern game.Uno then { game with over := true }
  else if checkWinningPattern game.Tres then { game with over := true }
  else if game.F.length = 0 then { game with over := true }
  else game

/-- C `nextPlayerMove`: returns the success flag together with the updated
state (the C function mutates `game` through a pointer and returns `bool`). -/
def nextPlayerMove (game : GameState) (pos : Position) : Bool × GameState :=
  if game.turn && game.go && positionInSet pos game.F then
    (true, { game with
              Uno := addPositionToSet pos game.Uno,
              F := removePositionFromSet pos game.F,
              turn := !game.turn,
              go := !game.go })
  else if !game.turn then
    let inUno := positionInSet pos game.Uno
    let inTres := positionInSet pos game.Tres
    if inUno || inTres then
      (true, { game with
                Uno := if inUno then removePositionFromSet pos game.Uno else game.Uno,
                Tres := if inTres then removePositionFromSet pos game.Tres else game.Tres,
                F := addPositionToSet pos game.F,
                turn := !game.turn })
    else (false, game)
  else if game.turn && !game.go && positionInSet pos game.F then
    (true, { game with
              Tres := addPositionToSet pos game.Tres,
              F := removePositionFromSet pos game.F,
              go := !game.go })
  else (false, game)

/-- A coordinate pair inside the valid 4×4 range (`main` checks
`x < 1 || x > GRID_SIZE || y < 1 || y > GRID_SIZE` before passing the move on). -/
def inRange (p : Position) : Prop :=
  1 ≤ p.x ∧ p.x ≤ 4 ∧ 1 ≤ p.y ∧ p.y ≤ 4

instance (p : Position) : Decidable (inRange p) := by
  unfold inRange; infer_instance

/-- States reachable by the engine: the initial state, any `nextPlayerMove`
call (accepted or rejected), and the `checkGameOver` pass the main loop runs
after an accepted move. -/
inductive Reachable : GameState → Prop
  | init : Reachable initializeGame
  | move (g : GameState) (p : Position) : Reachable g → Reachable (nextPlayerMove g p).2
  | check (g : GameState) : Reachable g → Reachable (checkGameOver g)

/-- Two lists with the same members (the "same set" relation under the list
encoding of `PositionSet`). -/
def SameMembers (l l' : List Position) : Prop :=
  ∀ q : Position, q ∈ l ↔ q ∈ l'

/-- The inductive invariant on sets: the three sets taken together hold
exactly the 16 grid cells, with multiplicity (as a multiset) — this packages
pairwise disjointness, freedom from duplicates, coverage of the in-range
cells and the size count. -/
def SetInv (g : GameState) : Prop :=
  ((g.Uno ++ g.Tres ++ g.F : List Position) : Multiset Position)
    = ((initialFree : List Position) : Multiset Position)

/-- The inductive invariant on the phase flags: the pair
`(turn, go) = (false, true)` never occurs. -/
def PhaseInv (g : GameState) : Prop :=
  g.go = true → g.turn = true

def GameInv (g : GameState) : Prop :=
  SetInv g ∧ PhaseInv g

/-- Phase A (spec §4.3): `turn = true, go = false` — Tres places. -/
def phaseA (g : GameState) : Prop := g.turn = true ∧ g.go = false

/-- Phase B (spec §4.3): `turn = true, go = true` — Uno places. -/
def phaseB (g : GameState) : Prop := g.turn = true ∧ g.go = true

/-- Phase C (spec §4.3): `turn = false` — Dos removes. -/
def phaseC (g : GameState) : Prop := g.turn = false

/-- The top-row winning line, `winningPatterns[0]`. -/
def topRowPattern : List Position := [⟨1,1⟩, ⟨1,2⟩, ⟨1,3⟩, ⟨1,4⟩]

/-! ### Basic characterizations of the set primitives -/

theorem posEq_iff (a b : Position) : posEq a b = true ↔ a = b := by
  cases a; cases b
  simp [posEq, Position.mk.injEq]

theorem positionInSet_iff (pos : Position) (l : List Position) :
    positionInSet pos l = true ↔ pos ∈ l := by
  simp [positionInSet, List.any_eq_true, posEq_iff]

theorem positionInSet_false_iff (pos : Position) (l : List Position) :
    positionInSet pos l = false ↔ pos ∉ l := by
  rw [← positionInSet_iff, Bool.not_eq_true, Bool.eq_false_iff, ne_eq]

theorem addPositionToSet_of_mem (pos : Position) (l : List Position) (h : pos ∈ l) :
    addPositionToSet pos l = l := by
  simp [addPositionToSet, positionInSet_iff, h]

theorem addPositionToSet_of_not_mem (pos : Position) (l : List Position) (h : pos ∉ l) :
    addPositionToSet pos l = l ++ [pos] := by
  simp [addPositionToSet, positionInSet_iff, h]

/-- The C removal (swap with the last live entry, shrink) produces a
permutation of straightforward first-occurrence erasure. -/
theorem removePositionFromSet_perm (pos : Position) (l : List Position) :
    List.Perm (removePositionFromSet pos l) (l.erase pos) := by
  induction l with
  | nil => simp [removePositionFromSet]
  | cons q rest ih =>
    by_cases h : q = pos
    · subst h
      rw [removePositionFromSet, if_pos (posEq_iff q q |>.mpr rfl), List.erase_cons_head]
      cases hrest : rest with
      | nil => simp
      | cons r rs =>
        have hne : rest ≠ [] := by simp [hrest]
        rw [← hrest, List.getLast?_eq_getLast rest hne]
        exact (List.perm_append_singleton _ _).symm.trans
          (by rw [List.dropLast_append_getLast hne])
    · have hb : posEq q pos = false := by
        cases hq : posEq q pos
        · rfl
        · exact absurd ((posEq_iff q pos).mp hq) h
      rw [removePositionFromSet, if_neg (by simp [hb]),
        List.erase_cons_tail (by simp [beq_iff_eq]; exact h)]
      exact ih.cons q

theorem removePositionFromSet_coe (pos : Position) (l : List Position) :
    ((removePositionFromSet pos l : List Position) : Multiset Position)
      = (l : Multiset Position).erase pos := by
  rw [Multiset.coe_erase]
  exact Multiset.coe_eq_coe.mpr (removePositionFromSet_perm pos l)

theorem mem_removePositionFromSet_of_ne (pos q : Position) (l : List Position) (h : q ≠ pos) :
    q ∈ removePositionFromSet pos l ↔ q ∈ l := by
  rw [(removePositionFromSet_perm pos l).mem_iff]
  exact List.mem_erase_of_ne h

theorem not_mem_removePositionFromSet (pos : Position) (l : List Position) (hnd : l.Nodup) :
    pos ∉ removePositionFromSet pos l := by
  intro hmem
  exact hnd.not_mem_erase ((removePositionFromSet_perm pos l).mem_iff.mp hmem)

/-! ### Branch equations for the move processor -/

theorem nextPlayerMove_uno (g : GameState) (p : Position) (ht : g.turn = true)
    (hg : g.go = true) (hf : positionInSet p g.F = true) :
    nextPlayerMove g p =
      (true, { g with Uno := addPositionToSet p g.Uno,
                      F := removePositionFromSet p g.F,
                      turn := false, go := false }) := by
  simp [nextPlayerMove, ht, hg, hf]

theorem nextPlayerMove_dos_hit (g : GameState) (p : Position) (ht : g.turn = false)
    (hin : (positionInSet p g.Uno || positionInSet p g.Tres) = true) :
    nextPlayerMove g p =
      (true, { g with
        Uno := if positionInSet p g.Uno then removePositionFromSet p g.Uno else g.Uno,
        Tres := if positionInSet p g.Tres then removePositionFromSet p g.Tres else g.Tres,
        F := addPositionToSet p g.F,
        turn := true }) := by
  simp only [nextPlayerMove, ht]
  simp [hin]

theorem nextPlayerMove_dos_miss (g : GameState) (p : Position) (ht : g.turn = false)
    (hU : positionInSet p g.Uno = false) (hT : positionInSet p g.Tres = false) :
    nextPlayerMove g p = (false, g) := by
  simp [nextPlayerMove, ht, hU, hT]

theorem nextPlayerMove_tres (g : GameState) (p : Position) (ht : g.turn = true)
    (hg : g.go = false) (hf : positionInSet p g.F = true) :
    nextPlayerMove g p =
      (true, { g with Tres := addPositionToSet p g.Tres,
                      F := removePositionFromSet p g.F,
                      go := true }) := by
  simp [nextPlayerMove, ht, hg, hf]

theorem nextPlayerMove_place_miss (g : GameState) (p : Position) (ht : g.turn = true)
    (hf : positionInSet p g.F = false) :
    nextPlayerMove g p = (false, g) := by
  simp [nextPlayerMove, ht, hf]

/-! ### Facts about the inductive invariant -/

theorem initialFree_nodup : initialFree.Nodup := by decide

theorem mem_initialFree (p : Position) : p ∈ initialFree ↔ inRange p := by
  obtain ⟨x, y⟩ := p
  simp [initialFree, inRange, Position.mk.injEq, List.mem_flatMap]
  constructor
  · rintro ⟨a, ha, c, ⟨b, hb, rfl⟩, hx, hy⟩
    omega
  · rintro ⟨h1, h2, h3, h4⟩
    exact ⟨(x - 1).toNat, by omega, ((y - 1).toNat : Int),
      ⟨(y - 1).toNat, by omega, rfl⟩, by omega, by omega⟩

theorem setInv_nodup (g : GameState) (hset : SetInv g) :
    (g.Uno ++ g.Tres ++ g.F).Nodup := by
  have h : ((g.Uno ++ g.Tres ++ g.F : List Position) : Multiset Position).Nodup := by
    rw [hset]
    exact Multiset.coe_nodup.mpr initialFree_nodup
  exact Multiset.coe_nodup.mp h

theorem setInv_mem (g : GameState) (hset : SetInv g) (q : Position) :
    q ∈ g.Uno ∨ q ∈ g.Tres ∨ q ∈ g.F ↔ inRange q := by
  have h : q ∈ (g.Uno ++ g.Tres ++ g.F) ↔ q ∈ initialFree := by
    rw [← Multiset.mem_coe, hset, Multiset.mem_coe]
  simp only [List.mem_append, or_assoc] at h
  rw [h, mem_initialFree]

theorem setInv_lengths (g : GameState) (hset : SetInv g) :
    g.Uno.length + g.Tres.length + g.F.length = 16 := by
  have h := congrArg Multiset.card hset
  simp only [Multiset.coe_card, List.length_append] at h
  have h16 : initialFree.length = 16 := by decide
  omega

theorem setInv_disjoint (g : GameState) (hset : SetInv g) (q : Position) :
    ¬(q ∈ g.Uno ∧ q ∈ g.Tres) ∧ ¬(q ∈ g.Uno ∧ q ∈ g.F) ∧ ¬(q ∈ g.Tres ∧ q ∈ g.F) := by
  have h := setInv_nodup g hset
  rw [List.nodup_append, List.nodup_append] at h
  obtain ⟨⟨_, _, hUT⟩, _, hUTF⟩ := h
  rw [List.disjoint_left] at hUT hUTF
  refine ⟨fun ⟨h1, h2⟩ => hUT h1 h2, fun ⟨h1, h2⟩ => ?_, fun ⟨h1, h2⟩ => ?_⟩
  · exact hUTF (List.mem_append_left _ h1) h2
  · exact hUTF (List.mem_append_right _ h1) h2

theorem setInv_nodup_each (g : GameState) (hset : SetInv g) :
    g.Uno.Nodup ∧ g.Tres.Nodup ∧ g.F.Nodup := by
  have h := setInv_nodup g hset
  rw [List.nodup_append, List.nodup_append] at h
  exact ⟨h.1.1, h.1.2.1, h.2.1⟩

theorem inv_init : GameInv initializeGame := by
  constructor
  · rfl
  · intro h
    rfl

/-- Exchanging a member of a list into a singleton: the multiset content of
`{p}` plus the C-removal result recovers the original list. -/
theorem multiset_swap (p : Position) (l : List Position) (hp : p ∈ l) :
    ({p} : Multiset Position) + ↑(removePositionFromSet p l) = (l : Multiset Position) := by
  rw [removePositionFromSet_coe, Multiset.singleton_add,
    Multiset.cons_erase (Multiset.mem_coe.mpr hp)]

theorem inv_move (g : GameState) (p : Position) (h : GameInv g) :
    GameInv (nextPlayerMove g p).2 := by
  obtain ⟨hset, hphase⟩ := h
  cases ht : g.turn with
  | false =>
    cases hU : positionInSet p g.Uno with
    | true =>
      have hpU : p ∈ g.Uno := (positionInSet_iff p g.Uno).mp hU
      have hpT : p ∉ g.Tres := fun hm => (setInv_disjoint g hset p).1 ⟨hpU, hm⟩
      have hpF : p ∉ g.F := fun hm => (setInv_disjoint g hset p).2.1 ⟨hpU, hm⟩
      have hT : positionInSet p g.Tres = false := (positionInSet_false_iff p g.Tres).mpr hpT
      rw [nextPlayerMove_dos_hit g p ht (by rw [hU]; rfl)]
      refine ⟨?_, fun _ => rfl⟩
      show ((_ ++ _ ++ _ : List Position) : Multiset Position) = _
      simp only [hU, hT, if_true, if_false, Bool.false_eq_true, ite_false, ite_true]
      rw [addPositionToSet_of_not_mem p g.F hpF, ← hset]
      simp only [← Multiset.coe_add, Multiset.coe_singleton]
      rw [← multiset_swap p g.Uno hpU]
      abel
    | false =>
      cases hT : positionInSet p g.Tres with
      | true =>
        have hpT : p ∈ g.Tres := (positionInSet_iff p g.Tres).mp hT
        have hpF : p ∉ g.F := fun hm => (setInv_disjoint g hset p).2.2 ⟨hpT, hm⟩
        rw [nextPlayerMove_dos_hit g p ht (by rw [hT]; simp)]
        refine ⟨?_, fun _ => rfl⟩
        show ((_ ++ _ ++ _ : List Position) : Multiset Position) = _
        simp only [hU, hT, if_true, if_false, Bool.false_eq_true, ite_false, ite_true]
        rw [addPositionToSet_of_not_mem p g.F hpF, ← hset]
        simp only [← Multiset.coe_add, Multiset.coe_singleton]
        rw [← multiset_swap p g.Tres hpT]
        abel
      | false =>
        rw [nextPlayerMove_dos_miss g p ht hU hT]
        exact ⟨hset, hphase⟩
  | true =>
    cases hf : positionInSet p g.F with
    | false =>
      rw [nextPlayerMove_place_miss g p ht hf]
      exact ⟨hset, hphase⟩
    | true =>
      have hpF : p ∈ g.F := (positionInSet_iff p g.F).mp hf
      have hpU : p ∉ g.Uno := fun hm => (setInv_disjoint g hset p).2.1 ⟨hm, hpF⟩
      have hpT : p ∉ g.Tres := fun hm => (setInv_disjoint g hset p).2.2 ⟨hm, hpF⟩
      cases hg : g.go with
      | true =>
        rw [nextPlayerMove_uno g p ht hg hf]
        refine ⟨?_, fun hfalse => by cases hfalse⟩
        show ((_ ++ _ ++ _ : List Position) : Multiset Position) = _
        rw [addPositionToSet_of_not_mem p g.Uno hpU, ← hset]
        simp only [← Multiset.coe_add, Multiset.coe_singleton]
        rw [← multiset_swap p g.F hpF]
        abel
      | false =>
        rw [nextPlayerMove_tres g p ht hg hf]
        refine ⟨?_, fun _ => ht⟩
        show ((_ ++ _ ++ _ : List Position) : Multiset Position) = _
        rw [addPositionToSet_of_not_mem p g.Tres hpT, ← hset]
        simp only [← Multiset.coe_add, Multiset.coe_singleton]
        rw [← multiset_swap p g.F hpF]
        abel

theorem inv_check (g : GameState) (h : GameInv g) : GameInv (checkGameOver g) := by
  unfold checkGameOver
  split_ifs <;> exact h

theorem reachable_inv (g : GameState) (h : Reachable g) : GameInv g := by
  induction h with
  | init => exact inv_init
  | move g p _ ih => exact inv_move g p ih
  | check g _ ih => exact inv_check g ih

/-- `nextPlayerMove` never writes the `over` field. -/
theorem nextPlayerMove_over (g : GameState) (p : Position) :
    (nextPlayerMove g p).2.over = g.over := by
  cases ht : g.turn with
  | true =>
    cases hf : positionInSet p g.F with
    | false => rw [nextPlayerMove_place_miss g p ht hf]
    | true =>
      cases hg : g.go with
      | true => rw [nextPlayerMove_uno g p ht hg hf]
      | false => rw [nextPlayerMove_tres g p ht hg hf]
  | false =>
    cases hU : positionInSet p g.Uno with
    | true => rw [nextPlayerMove_dos_hit g p ht (by rw [hU]; rfl)]
    | false =>
      cases hT : positionInSet p g.Tres with
      | true => rw [nextPlayerMove_dos_hit g p ht (by rw [hT]; simp)]
      | false => rw [nextPlayerMove_dos_miss g p ht hU hT]

/-- A rejected call returns the state it was given. -/
theorem nextPlayerMove_of_false (g : GameState) (p : Position)
    (h : (nextPlayerMove g p).1 = false) : (nextPlayerMove g p).2 = g := by
  cases ht : g.turn with
  | true =>
    cases hf : positionInSet p g.F with
    | false => rw [nextPlayerMove_place_miss g p ht hf]
    | true =>
      cases hg : g.go with
      | true => rw [nextPlayerMove_uno g p ht hg hf] at h; simp at h
      | false => rw [nextPlayerMove_tres g p ht hg hf] at h; simp at h
  | false =>
    cases hU : positionInSet p g.Uno with
    | true => rw [nextPlayerMove_dos_hit g p ht (by rw [hU]; rfl)] at h; simp at h
    | false =>
      cases hT : positionInSet p g.Tres with
      | true => rw [nextPlayerMove_dos_hit g p ht (by rw [hT]; simp)] at h; simp at h
      | false => rw [nextPlayerMove_dos_miss g p ht hU hT]

/-! ### The claims -/

/-- C1: in every reachable GameState the sets `Uno`, `Tres` and `F` partition
the 16 grid cells — they are pairwise disjoint, an in-range cell lies in (at
least, hence exactly) one of them, only in-range cells appear, and the three
sizes sum to 16. -/
theorem C1_partition (g : GameState) (h : Reachable g) :
    (∀ q : Position, ¬(q ∈ g.Uno ∧ q ∈ g.Tres)) ∧
    (∀ q : Position, ¬(q ∈ g.Uno ∧ q ∈ g.F)) ∧
    (∀ q : Position, ¬(q ∈ g.Tres ∧ q ∈ g.F)) ∧
    (∀ q : Position, inRange q ↔ (q ∈ g.Uno ∨ q ∈ g.Tres ∨ q ∈ g.F)) ∧
    g.Uno.length + g.Tres.length + g.F.length = 16 := by
  have hset := (reachable_inv g h).1
  exact ⟨fun q => (setInv_disjoint g hset q).1,
    fun q => (setInv_disjoint g hset q).2.1,
    fun q => (setInv_disjoint g hset q).2.2,
    fun q => (setInv_mem g hset q).symm,
    setInv_lengths g hset⟩

theorem C1_partition_witness :
    (∀ q : Position, ¬(q ∈ initializeGame.Uno ∧ q ∈ initializeGame.Tres)) ∧
    (∀ q : Position, ¬(q ∈ initializeGame.Uno ∧ q ∈ initializeGame.F)) ∧
    (∀ q : Position, ¬(q ∈ initializeGame.Tres ∧ q ∈ initializeGame.F)) ∧
    (∀ q : Position, inRange q ↔
      (q ∈ initializeGame.Uno ∨ q ∈ initializeGame.Tres ∨ q ∈ initializeGame.F)) ∧
    initializeGame.Uno.length + initializeGame.Tres.length + initializeGame.F.length = 16 :=
  C1_partition initializeGame Reachable.init

/-- C3: whenever `nextPlayerMove` returns `false`, every field of the state
is unchanged. -/
theorem C3_reject_unchanged (g : GameState) (p : Position)
    (h : (nextPlayerMove g p).1 = false) :
    (nextPlayerMove g p).2.Uno = g.Uno ∧ (nextPlayerMove g p).2.Tres = g.Tres ∧
    (nextPlayerMove g p).2.F = g.F ∧ (nextPlayerMove g p).2.turn = g.turn ∧
    (nextPlayerMove g p).2.go = g.go ∧ (nextPlayerMove g p).2.over = g.over := by
  rw [nextPlayerMove_of_false g p h]
  exact ⟨rfl, rfl, rfl, rfl, rfl, rfl⟩

theorem C3_reject_unchanged_witness :
    (nextPlayerMove initializeGame ⟨0,0⟩).2.Uno = initializeGame.Uno ∧
    (nextPlayerMove initializeGame ⟨0,0⟩).2.Tres = initializeGame.Tres ∧
    (nextPlayerMove initializeGame ⟨0,0⟩).2.F = initializeGame.F ∧
    (nextPlayerMove initializeGame ⟨0,0⟩).2.turn = initializeGame.turn ∧
    (nextPlayerMove initializeGame ⟨0,0⟩).2.go = initializeGame.go ∧
    (nextPlayerMove initializeGame ⟨0,0⟩).2.over = initializeGame.over :=
  C3_reject_unchanged initializeGame ⟨0,0⟩ (by decide)

/-- C2: on a reachable non-terminal state, `nextPlayerMove` returns `false`
exactly when the position is out of range, or the phase is a placement phase
(`turn = true`) and the position is not free, or the phase is the removal
phase (`turn = false`) and the position is owned by neither player. -/
theorem C2_reject_iff (g : GameState) (p : Position) (hr : Reachable g)
    (hnt : g.over = false) :
    (nextPlayerMove g p).1 = false ↔
      (¬inRange p ∨
       (g.turn = true ∧ p ∉ g.F) ∨
       (g.turn = false ∧ p ∉ g.Uno ∧ p ∉ g.Tres)) := by
  have hset := (reachable_inv g hr).1
  cases ht : g.turn with
  | true =>
    cases hf : positionInSet p g.F with
    | true =>
      have hpF : p ∈ g.F := (positionInSet_iff p g.F).mp hf
      have hin : inRange p := (setInv_mem g hset p).mp (Or.inr (Or.inr hpF))
      cases hg : g.go with
      | true => rw [nextPlayerMove_uno g p ht hg hf]; simp [hin, hpF, ht]
      | false => rw [nextPlayerMove_tres g p ht hg hf]; simp [hin, hpF, ht]
    | false =>
      rw [nextPlayerMove_place_miss g p ht hf]
      simp [ht, (positionInSet_false_iff p g.F).mp hf]
  | false =>
    cases hU : positionInSet p g.Uno with
    | true =>
      have hpU : p ∈ g.Uno := (positionInSet_iff p g.Uno).mp hU
      have hin : inRange p := (setInv_mem g hset p).mp (Or.inl hpU)
      rw [nextPlayerMove_dos_hit g p ht (by rw [hU]; rfl)]
      simp [hin, hpU, ht]
    | false =>
      cases hT : positionInSet p g.Tres with
      | true =>
        have hpT : p ∈ g.Tres := (positionInSet_iff p g.Tres).mp hT
        have hin : inRange p := (setInv_mem g hset p).mp (Or.inr (Or.inl hpT))
        rw [nextPlayerMove_dos_hit g p ht (by rw [hT]; simp)]
        simp [hin, hpT, ht]
      | false =>
        rw [nextPlayerMove_dos_miss g p ht hU hT]
        simp [ht, (positionInSet_false_iff p g.Uno).mp hU,
          (positionInSet_false_iff p g.Tres).mp hT]

theorem C2_reject_iff_witness :
    ((nextPlayerMove initializeGame ⟨5,1⟩).1 = false ↔
      (¬inRange ⟨5,1⟩ ∨
       (initializeGame.turn = true ∧ (⟨5,1⟩ : Position) ∉ initializeGame.F) ∨
       (initializeGame.turn = false ∧ (⟨5,1⟩ : Position) ∉ initializeGame.Uno ∧
        (⟨5,1⟩ : Position) ∉ initializeGame.Tres))) :=
  C2_reject_iff initializeGame ⟨5,1⟩ Reachable.init rfl

/-- C4: a fresh game is in Phase A (`turn = true`, `go = false`, so Tres
moves first); on a reachable state an accepted move advances the phase along
the fixed cycle A → B → C → A, and a rejected move leaves both phase flags
unchanged. -/
theorem C4_phase_cycle (g : GameState) (p : Position) (hr : Reachable g) :
    phaseA initializeGame ∧
    ((nextPlayerMove g p).1 = true →
      ((phaseA g → phaseB (nextPlayerMove g p).2) ∧
       (phaseB g → phaseC (nextPlayerMove g p).2) ∧
       (phaseC g → phaseA (nextPlayerMove g p).2))) ∧
    ((nextPlayerMove g p).1 = false →
      ((nextPlayerMove g p).2.turn = g.turn ∧ (nextPlayerMove g p).2.go = g.go)) := by
  have hphase := (reachable_inv g hr).2
  refine ⟨⟨rfl, rfl⟩, ?_, ?_⟩
  · intro hacc
    cases ht : g.turn with
    | true =>
      cases hf : positionInSet p g.F with
      | false => rw [nextPlayerMove_place_miss g p ht hf] at hacc; simp at hacc
      | true =>
        cases hg : g.go with
        | true =>
          rw [nextPlayerMove_uno g p ht hg hf]
          exact ⟨fun hA => absurd hg (by rw [hA.2]; simp),
            fun _ => rfl, fun hC => absurd ht (by rw [hC]; simp)⟩
        | false =>
          rw [nextPlayerMove_tres g p ht hg hf]
          exact ⟨fun _ => ⟨ht, rfl⟩,
            fun hB => absurd hg (by rw [hB.2]; simp),
            fun hC => absurd ht (by rw [hC]; simp)⟩
    | false =>
      have hgo : g.go = false := by
        cases hgo : g.go with
        | false => rfl
        | true => exact absurd (hphase hgo) (by rw [ht]; simp)
      cases hU : positionInSet p g.Uno with
      | true =>
        rw [nextPlayerMove_dos_hit g p ht (by rw [hU]; rfl)]
        exact ⟨fun hA => absurd ht (by rw [hA.1]; simp),
          fun hB => absurd ht (by rw [hB.1]; simp),
          fun _ => ⟨rfl, hgo⟩⟩
      | false =>
        cases hT : positionInSet p g.Tres with
        | true =>
          rw [nextPlayerMove_dos_hit g p ht (by rw [hT]; simp)]
          exact ⟨fun hA => absurd ht (by rw [hA.1]; simp),
            fun hB => absurd ht (by rw [hB.1]; simp),
            fun _ => ⟨rfl, hgo⟩⟩
        | false =>
          rw [nextPlayerMove_dos_miss g p ht hU hT] at hacc
          simp at hacc
  · intro hrej
    rw [nextPlayerMove_of_false g p hrej]
    exact ⟨rfl, rfl⟩

theorem C4_phase_cycle_witness :
    phaseA initializeGame ∧
    ((nextPlayerMove initializeGame ⟨1,1⟩).1 = true →
      ((phaseA initializeGame → phaseB (nextPlayerMove initializeGame ⟨1,1⟩).2) ∧
       (phaseB initializeGame → phaseC (nextPlayerMove initializeGame ⟨1,1⟩).2) ∧
       (phaseC initializeGame → phaseA (nextPlayerMove initializeGame ⟨1,1⟩).2))) ∧
    ((nextPlayerMove initializeGame ⟨1,1⟩).1 = false →
      ((nextPlayerMove initializeGame ⟨1,1⟩).2.turn = initializeGame.turn ∧
       (nextPlayerMove initializeGame ⟨1,1⟩).2.go = initializeGame.go)) :=
  C4_phase_cycle initializeGame ⟨1,1⟩ Reachable.init

/-- `checkGameOver` on a not-yet-terminal state sets `over` exactly when one
of the three conditions of the C function holds. -/
theorem checkGameOver_over_iff (g : GameState) (hover : g.over = false) :
    ((checkGameOver g).over = true ↔
      (checkWinningPattern g.Uno = true ∨ checkWinningPattern g.Tres = true ∨
       g.F.length = 0)) := by
  unfold checkGameOver
  split_ifs <;> simp_all

/-- C5: after an accepted move from a non-terminal state, running
`checkGameOver` leaves `over = true` exactly when Uno's set or Tres's set
contains a winning pattern or the free set is empty; otherwise `over` stays
`false`. -/
theorem C5_gameover (g : GameState) (p : Position) (hover : g.over = false)
    (hacc : (nextPlayerMove g p).1 = true) :
    ((checkGameOver (nextPlayerMove g p).2).over = true ↔
      (checkWinningPattern (nextPlayerMove g p).2.Uno = true ∨
       checkWinningPattern (nextPlayerMove g p).2.Tres = true ∨
       (nextPlayerMove g p).2.F.length = 0)) := by
  have h : (nextPlayerMove g p).2.over = false := by
    rw [nextPlayerMove_over g p, hover]
  exact checkGameOver_over_iff (nextPlayerMove g p).2 h

theorem C5_gameover_witness :
    ((checkGameOver (nextPlayerMove initializeGame ⟨1,1⟩).2).over = true ↔
      (checkWinningPattern (nextPlayerMove initializeGame ⟨1,1⟩).2.Uno = true ∨
       checkWinningPattern (nextPlayerMove initializeGame ⟨1,1⟩).2.Tres = true ∨
       (nextPlayerMove initializeGame ⟨1,1⟩).2.F.length = 0)) :=
  C5_gameover initializeGame ⟨1,1⟩ rfl (by decide)

theorem positionInSet_congr (p : Position) (l l' : List Position)
    (h : SameMembers l l') : positionInSet p l = positionInSet p l' := by
  cases hb : positionInSet p l' with
  | true => exact (positionInSet_iff p l).mpr ((h p).mpr ((positionInSet_iff p l').mp hb))
  | false =>
    rw [positionInSet_false_iff] at hb ⊢
    exact fun hm => hb ((h p).mp hm)

/-- `checkWinningPattern` only depends on which positions are members. -/
theorem checkWinningPattern_congr (l l' : List Position) (h : SameMembers l l') :
    checkWinningPattern l = checkWinningPattern l' := by
  have hfun : (fun q : Position => positionInSet q l)
      = (fun q : Position => positionInSet q l') :=
    funext fun q => positionInSet_congr q l l' h
  simp only [checkWinningPattern, hfun]

/-- C6: any set with exactly the members `{(1,1),(1,2),(1,3),(1,4)}` is
detected as a win, and for each of the four cells the three-element set
obtained by removing it (and containing nothing else) is not. -/
theorem C6_win_detection :
    (∀ l : List Position, SameMembers l topRowPattern →
      checkWinningPattern l = true) ∧
    (∀ c : Position, c ∈ topRowPattern → ∀ l : List Position,
      SameMembers l (topRowPattern.erase c) → checkWinningPattern l = false) := by
  constructor
  · intro l hl
    rw [checkWinningPattern_congr l topRowPattern hl]
    decide
  · intro c hc l hl
    rw [checkWinningPattern_congr l (topRowPattern.erase c) hl]
    fin_cases hc <;> decide

theorem C6_win_detection_witness :
    checkWinningPattern topRowPattern = true ∧
    checkWinningPattern (topRowPattern.erase ⟨1,1⟩) = false :=
  ⟨C6_win_detection.1 topRowPattern (fun _ => Iff.rfl),
   C6_win_detection.2 ⟨1,1⟩ (by decide) (topRowPattern.erase ⟨1,1⟩) (fun _ => Iff.rfl)⟩

/-- C7 counterexample: on a state whose terminal flag is set, `nextPlayerMove`
still accepts a move — the C function never consults `over`, so the claim
that it refuses every Position once terminal is false. -/
theorem C7_counterexample :
    (nextPlayerMove { initializeGame with over := true } ⟨1,1⟩).1 = true ∧
    (nextPlayerMove { initializeGame with over := true } ⟨1,1⟩).2.Tres
      = [⟨1,1⟩] := by
  constructor
  · decide
  · decide

/-- C7 (amended): `nextPlayerMove` never clears a set terminal flag — `over`
is preserved by every call (the refusal of post-terminal moves is enforced by
the main loop's `while (!game.over)` guard, not by the move processor). -/
theorem C7_terminal_preserved (g : GameState) (p : Position)
    (hover : g.over = true) : (nextPlayerMove g p).2.over = true := by
  rw [nextPlayerMove_over g p, hover]

theorem C7_terminal_preserved_witness :
    (nextPlayerMove { initializeGame with over := true } ⟨1,1⟩).2.over = true :=
  C7_terminal_preserved { initializeGame with over := true } ⟨1,1⟩ rfl

/-- C8 counterexample: in Phase B (`turn = true`, `go = true`) an accepted
move sets `go` to `false` — the claim that phaseMinor remains true after the
transition is false (the C code toggles both flags). -/
theorem C8_counterexample :
    (nextPlayerMove { initializeGame with go := true } ⟨2,2⟩).1 = true ∧
    (nextPlayerMove { initializeGame with go := true } ⟨2,2⟩).2.go = false := by
  constructor
  · decide
  · decide

/-- C8 (amended): in Phase B, an accepted move on a free position is
accepted, puts the position into Uno's set, removes it from the free set,
leaves Tres's set alone, and sets `turn` to `false` while also toggling `go`
to `false` (rather than leaving it true). -/
theorem C8_phaseB_move (g : GameState) (p : Position) (ht : g.turn = true)
    (hg : g.go = true) (hpF : p ∈ g.F) (hnd : g.F.Nodup) :
    (nextPlayerMove g p).1 = true ∧
    p ∈ (nextPlayerMove g p).2.Uno ∧
    p ∉ (nextPlayerMove g p).2.F ∧
    (∀ q : Position, q ≠ p → (q ∈ (nextPlayerMove g p).2.Uno ↔ q ∈ g.Uno)) ∧
    (∀ q : Position, q ≠ p → (q ∈ (nextPlayerMove g p).2.F ↔ q ∈ g.F)) ∧
    (nextPlayerMove g p).2.Tres = g.Tres ∧
    (nextPlayerMove g p).2.turn = false ∧
    (nextPlayerMove g p).2.go = false := by
  rw [nextPlayerMove_uno g p ht hg ((positionInSet_iff p g.F).mpr hpF)]
  refine ⟨rfl, ?_, ?_, ?_, ?_, rfl, rfl, rfl⟩
  · by_cases hm : p ∈ g.Uno
    · rw [addPositionToSet_of_mem p _ hm]; exact hm
    · rw [addPositionToSet_of_not_mem p _ hm]; simp
  · exact not_mem_removePositionFromSet p g.F hnd
  · intro q hq
    by_cases hm : p ∈ g.Uno
    · rw [addPositionToSet_of_mem p _ hm]
    · rw [addPositionToSet_of_not_mem p _ hm]; simp [hq]
  · intro q hq
    exact mem_removePositionFromSet_of_ne p q g.F hq

theorem C8_phaseB_move_witness :
    (nextPlayerMove { initializeGame with go := true } ⟨2,2⟩).1 = true ∧
    (⟨2,2⟩ : Position) ∈ (nextPlayerMove { initializeGame with go := true } ⟨2,2⟩).2.Uno ∧
    (⟨2,2⟩ : Position) ∉ (nextPlayerMove { initializeGame with go := true } ⟨2,2⟩).2.F ∧
    (∀ q : Position, q ≠ ⟨2,2⟩ →
      (q ∈ (nextPlayerMove { initializeGame with go := true } ⟨2,2⟩).2.Uno ↔
       q ∈ ({ initializeGame with go := true } : GameState).Uno)) ∧
    (∀ q : Position, q ≠ ⟨2,2⟩ →
      (q ∈ (nextPlayerMove { initializeGame with go := true } ⟨2,2⟩).2.F ↔
       q ∈ ({ initializeGame with go := true } : GameState).F)) ∧
    (nextPlayerMove { initializeGame with go := true } ⟨2,2⟩).2.Tres
      = ({ initializeGame with go := true } : GameState).Tres ∧
    (nextPlayerMove { initializeGame with go := true } ⟨2,2⟩).2.turn = false ∧
    (nextPlayerMove { initializeGame with go := true } ⟨2,2⟩).2.go = false :=
  C8_phaseB_move { initializeGame with go := true } ⟨2,2⟩ rfl rfl (by decide) (by decide)

/-- C9 counterexample: `addPositionToSet` has no capacity guard.  Inserting an
absent position into a set already holding 16 elements does not leave it
unchanged: the live-entry list grows to 17 (in the C array this is the
out-of-bounds write `positions[16]` together with `size++`). -/
theorem C9_counterexample :
    initialFree.length = 16 ∧
    (addPositionToSet ⟨5,5⟩ initialFree).length = 17 := by
  constructor
  · decide
  · decide

/-- C9 (amended): insertion is total and idempotent — inserting a present
position is a no-op; inserting an absent position always appends it, growing
the size by exactly one (there is no capacity check in the code; the partition
invariant is what keeps reachable sets within the 16-slot array). -/
theorem C9_insert_total (pos : Position) (set : List Position) :
    (pos ∈ set → addPositionToSet pos set = set) ∧
    (pos ∉ set →
      (addPositionToSet pos set).length = set.length + 1 ∧
      pos ∈ addPositionToSet pos set) := by
  constructor
  · exact addPositionToSet_of_mem pos set
  · intro h
    rw [addPositionToSet_of_not_mem pos set h]
    simp

theorem C9_insert_total_witness :
    (addPositionToSet ⟨1,1⟩ [⟨1,1⟩] = [⟨1,1⟩]) ∧
    ((addPositionToSet ⟨2,2⟩ ([] : List Position)).length
        = ([] : List Position).length + 1 ∧
     (⟨2,2⟩ : Position) ∈ addPositionToSet ⟨2,2⟩ ([] : List Position)) :=
  ⟨(C9_insert_total ⟨1,1⟩ [⟨1,1⟩]).1 (by decide),
   (C9_insert_total ⟨2,2⟩ []).2 (by decide)⟩

/-- C10: in every reachable state, every position held in any of the three
sets has both coordinates in [1,4]; consequently `nextPlayerMove`, although it
performs no explicit range check, rejects every out-of-range position and
leaves the state unchanged. -/
theorem C10_range_invariant (g : GameState) (h : Reachable g) :
    (∀ q : Position, (q ∈ g.Uno ∨ q ∈ g.Tres ∨ q ∈ g.F) → inRange q) ∧
    (∀ p : Position, ¬inRange p →
      (nextPlayerMove g p).1 = false ∧ (nextPlayerMove g p).2 = g) := by
  have hset := (reachable_inv g h).1
  constructor
  · exact fun q hq => (setInv_mem g hset q).mp hq
  · intro p hp
    have hU : positionInSet p g.Uno = false :=
      (positionInSet_false_iff _ _).mpr
        (fun hm => hp ((setInv_mem g hset p).mp (Or.inl hm)))
    have hT : positionInSet p g.Tres = false :=
      (positionInSet_false_iff _ _).mpr
        (fun hm => hp ((setInv_mem g hset p).mp (Or.inr (Or.inl hm))))
    have hF : positionInSet p g.F = false :=
      (positionInSet_false_iff _ _).mpr
        (fun hm => hp ((setInv_mem g hset p).mp (Or.inr (Or.inr hm))))
    cases ht : g.turn with
    | true => rw [nextPlayerMove_place_miss g p ht hF]; exact ⟨rfl, rfl⟩
    | false => rw [nextPlayerMove_dos_miss g p ht hU hT]; exact ⟨rfl, rfl⟩

theorem C10_range_invariant_witness :
    (∀ q : Position,
      (q ∈ initializeGame.Uno ∨ q ∈ initializeGame.Tres ∨ q ∈ initializeGame.F) →
      inRange q) ∧
    (∀ p : Position, ¬inRange p →
      (nextPlayerMove initializeGame p).1 = false ∧
      (nextPlayerMove initializeGame p).2 = initializeGame) :=
  C10_range_invariant initializeGame Reachable.init
